import Mathlib

/-!
Verification of the `priyut_luchshiy_drug` pet-adoption catalog.

Part I embeds the authentication/authorization core (PasswordService,
JWTService, the auth use cases and the API-layer dependencies described in
`backend/AUTH_ARCHITECTURE.md`).  The backend implementation files are not
part of the checked-in sources, so every definition in Part I is modelled
from the specification document, as indicated in its doc comment.

Part II embeds the frontend TypeScript that is present in the sources:
`buildQuery`/`fetchPetList` from the pets API client, the pagination window
of `PetsPage`, and `imageUrl` from the config module.
-/

namespace Priyut

/-! ### Character-level codec helpers

The spec describes the token wire format as "a signed, self-contained
string encoding subject, kind, issued/expiry timestamps, and signature" and
the password hash as an opaque blob.  We model both wire formats over
`List Char` with a decimal encoding of naturals and single-character
separators. -/

/-- Decimal digit to its character, `0 ↦ '0'`. -/
def digitChar (d : Nat) : Char := Char.ofNat (48 + d)

/-- Character back to a decimal digit, `'0' ↦ 0`. -/
def charDigit (c : Char) : Nat := c.toNat - 48

/-- Least-significant-first decimal digits of `n`; `fuel` bounds the
recursion so the definition is structural. -/
def toDigitsRev (fuel n : Nat) : List Nat :=
  match fuel with
  | 0 => []
  | fuel + 1 => if n = 0 then [] else n % 10 :: toDigitsRev fuel (n / 10)

/-- Decimal rendering of a natural number as characters. -/
def natToChars (n : Nat) : List Char :=
  if n = 0 then ['0'] else ((toDigitsRev n n).map digitChar).reverse

/-- Decimal parsing of a character list (lenient: non-digits are clamped,
which is harmless because unsigned garbage never passes the signature
check). -/
def charsToNat (l : List Char) : Nat :=
  l.foldl (fun a c => 10 * a + charDigit c) 0

/-- Split a character list on a separator character.  The result is always
non-empty; a separator-free list yields a single group. -/
def splitOnChar (sep : Char) : List Char → List (List Char)
  | [] => [[]]
  | c :: rest =>
    let gs := splitOnChar sep rest
    if c = sep then [] :: gs else (c :: gs.headD []) :: gs.tail

/-! ### Error taxonomy

Modelled from the spec: `domain/exceptions/auth_exceptions.py` declares
`InvalidCredentialsError`, `TokenInvalidError`, `TokenExpiredError` and
`AuthorizationError`. -/

/-- Modelled from the spec: the four terminal error kinds of the auth core. -/
inductive AuthError
  | invalidCredentials
  | tokenInvalid
  | tokenExpired
  | authorizationError
deriving DecidableEq, Repr

/-! ### TokenService (JWTService)

Modelled from the spec: `infrastructure/services/jwt_service.py` is not in
the checked-in sources; `issue` and `validate` below follow §4.2 of the
specification: `issue` sets `issued_at = now`, `expires_at = now + ttl kind`
with `ttl access < ttl refresh` and signs over all payload fields with a
process-wide key; `validate` fails with `tokenInvalid` on malformed
structure, bad signature or wrong kind, fails with `tokenExpired` only
after the signature verifies, and otherwise returns the subject. -/

/-- Token kind: access tokens are short-lived, refresh tokens long-lived. -/
inductive TokenKind
  | access
  | refresh
deriving DecidableEq, Repr

/-- Time-to-live per kind; `ttl access < ttl refresh` as the spec demands. -/
def ttl : TokenKind → Nat
  | .access => 900
  | .refresh => 604800

/-- Modelled from the spec: the payload fields of a token. -/
structure TokenPayload where
  subject : Nat
  kind : TokenKind
  issued_at : Nat
  expires_at : Nat
deriving DecidableEq, Repr

/-- Wire rendering of a token kind. -/
def kindChars : TokenKind → List Char
  | .access => ['a', 'c', 'c', 'e', 's', 's']
  | .refresh => ['r', 'e', 'f', 'r', 'e', 's', 'h']

/-- Wire parsing of a token kind. -/
def parseKind (l : List Char) : Option TokenKind :=
  if l = kindChars .access then some .access
  else if l = kindChars .refresh then some .refresh
  else none

/-- Wire rendering of a payload: the four fields separated by dots. -/
def serializePayload (p : TokenPayload) : List Char :=
  natToChars p.subject ++ '.' ::
    (kindChars p.kind ++ '.' :: (natToChars p.issued_at ++ '.' :: natToChars p.expires_at))

/-- Wire parsing of a payload: exactly four dot-separated fields with a
recognized kind, otherwise malformed. -/
def parsePayload (l : List Char) : Option TokenPayload :=
  match splitOnChar '.' l with
  | [s, k, i, e] =>
    match parseKind k with
    | some kd => some ⟨charsToNat s, kd, charsToNat i, charsToNat e⟩
    | none => none
  | _ => none

/-- Modelled from the spec: deterministic signature over the serialized
payload with the process-wide key (an idealized MAC, injective per key). -/
def signChars (key : Nat) (payload : List Char) : List Char :=
  natToChars key ++ ':' :: payload

namespace TokenService

/-- Modelled from the spec: `issue(subject, kind, now)` builds the payload
with `issued_at = now`, `expires_at = now + ttl kind`, and appends the
signature after a `'|'` separator. -/
def issue (key subject : Nat) (kind : TokenKind) (now : Nat) : List Char :=
  let p := serializePayload ⟨subject, kind, now, now + ttl kind⟩
  p ++ '|' :: signChars key p

/-- Modelled from the spec: `validate(raw_token, expected_kind, now)`.
Checks, in order: structure, signature, kind, expiry; returns the subject. -/
def validate (key : Nat) (raw : List Char) (expected : TokenKind) (now : Nat) :
    Except AuthError Nat :=
  match raw.dropWhile (fun c => c ≠ '|') with
  | '|' :: sigPart =>
    let payloadPart := raw.takeWhile (fun c => c ≠ '|')
    match parsePayload payloadPart with
    | none => .error .tokenInvalid
    | some p =>
      if signChars key payloadPart ≠ sigPart then .error .tokenInvalid
      else if p.kind ≠ expected then .error .tokenInvalid
      else if p.expires_at ≤ now then .error .tokenExpired
      else .ok p.subject
  | _ => .error .tokenInvalid

end TokenService

/-! ### PasswordService

Modelled from the spec: `infrastructure/services/password_service.py` is
not in the checked-in sources; per §4.1 of the specification, `hash` is a
salted one-way function (salt made an explicit argument to keep the model
deterministic) and `verify` recomputes the digest from the blob's salt and
compares, returning `false` — never throwing — on malformed blobs. -/

namespace PasswordService

/-- Modelled from the spec: the derived digest of salt and plaintext
(stands in for the slow key-derivation function). -/
def digest (salt : Nat) (plaintext : String) : Nat :=
  plaintext.data.foldl (fun a c => a * 131 + c.toNat) (salt + 1)

/-- Modelled from the spec: `hash(plaintext) -> hash_blob`; the blob stores
the salt and the derived digest separated by `'$'`. -/
def hash (salt : Nat) (plaintext : String) : List Char :=
  natToChars salt ++ '$' :: natToChars (digest salt plaintext)

/-- Modelled from the spec: `verify(plaintext, hash_blob) -> bool`;
comparison against the recomputed digest, `false` on malformed blobs. -/
def verify (plaintext : String) (blob : List Char) : Bool :=
  match splitOnChar '$' blob with
  | [saltCs, digestCs] => digestCs == natToChars (digest (charsToNat saltCs) plaintext)
  | _ => false

end PasswordService

/-! ### User entity, directory and AuthService

Modelled from the spec: the `User` domain entity, the narrow read
interface of the user store, and the login/verify use cases of §4.3. -/

/-- Modelled from the spec: the `User` domain entity. -/
structure User where
  id : Nat
  email : String
  password_hash : List Char
  is_active : Bool
  is_admin : Bool
deriving DecidableEq, Repr

namespace UserDirectory

/-- Modelled from the spec: `find_by_email(email) -> User | None`. -/
def find_by_email (dir : List User) (email : String) : Option User :=
  dir.find? (fun u => u.email == email)

/-- Modelled from the spec: `find_by_id(id) -> User | None`. -/
def find_by_id (dir : List User) (id : Nat) : Option User :=
  dir.find? (fun u => u.id == id)

end UserDirectory

/-- Modelled from the spec: `AuthResult`, the access/refresh pair plus the
resolved user returned by `login`. -/
structure AuthResult where
  access_token : List Char
  refresh_token : List Char
  user : User
deriving DecidableEq, Repr

namespace AuthService

/-- Modelled from the spec: `login(email, plaintext)` — look up by email,
verify the password, check `is_active`, each failure raising the same
`invalidCredentials`; on success issue an access and a refresh token bound
to the user's id and return them with the user. -/
def login (key : Nat) (dir : List User) (email plaintext : String) (now : Nat) :
    Except AuthError AuthResult :=
  match UserDirectory.find_by_email dir email with
  | none => .error .invalidCredentials
  | some user =>
    if PasswordService.verify plaintext user.password_hash = false then
      .error .invalidCredentials
    else if user.is_active = false then .error .invalidCredentials
    else
      .ok ⟨TokenService.issue key user.id .access now,
        TokenService.issue key user.id .refresh now, user⟩

/-- Modelled from the spec: `verify(raw_access_token)` — validate as an
access token (propagating token errors unchanged), re-resolve the user,
fail with `invalidCredentials` if missing or inactive. -/
def verify (key : Nat) (dir : List User) (raw : List Char) (now : Nat) :
    Except AuthError User :=
  match TokenService.validate key raw .access now with
  | .error e => .error e
  | .ok subject =>
    match UserDirectory.find_by_id dir subject with
    | none => .error .invalidCredentials
    | some user => if user.is_active = false then .error .invalidCredentials else .ok user

end AuthService

/-! ### AccessGate

Modelled from the spec: the API-layer dependencies `get_current_user`,
`get_optional_current_user` and `get_admin_user` of §4.4 — extraction of
the bearer token from the `Authorization` header, optional authentication
that treats a missing header as anonymous, and the admin role check. -/

namespace AccessGate

/-- The `Bearer ` scheme prefix of the Authorization header value. -/
def bearerScheme : List Char := ['B', 'e', 'a', 'r', 'e', 'r', ' ']

/-- Modelled from the spec: extract the token from a `Bearer <token>`
header value; `none` when the scheme is missing or malformed. -/
def extractBearer (header : List Char) : Option (List Char) :=
  if bearerScheme.isPrefixOf header then some (header.drop 7) else none

/-- Modelled from the spec: mandatory authentication (`get_current_user`):
fail with `tokenInvalid` if the scheme is malformed, else delegate to
`AuthService.verify`. -/
def authenticate (key : Nat) (dir : List User) (now : Nat) (header : List Char) :
    Except AuthError User :=
  match extractBearer header with
  | none => .error .tokenInvalid
  | some tok => AuthService.verify key dir tok now

/-- Modelled from the spec: optional authentication
(`get_optional_current_user`): a missing header yields no identity rather
than an error; a present header goes through `authenticate` unchanged. -/
def authenticate_optional (key : Nat) (dir : List User) (now : Nat)
    (header : Option (List Char)) : Except AuthError (Option User) :=
  match header with
  | none => .ok none
  | some h => (authenticate key dir now h).map some

/-- Modelled from the spec: `require_admin` (`get_admin_user`): fail with
`authorizationError` unless `is_admin`; otherwise return the user as is. -/
def require_admin (user : User) : Except AuthError User :=
  if user.is_admin = false then .error .authorizationError else .ok user

end AccessGate

/-! ### Frontend: pets API client (`src/api/pets.ts`)

Embeds `buildQuery` and the URL construction of `fetchPetList`.  A
`URLSearchParams` value is modelled as the ordered list of name/value
pairs produced by the `set`/`append` calls; its `toString` form-encodes
each name and value and joins them with `&`. -/

/-- The optional filter parameters of the pet list request
(`PetListParams` in `src/types/pet.ts`); `none` models an
absent/undefined (or null) field. -/
structure PetListParams where
  skip : Option Int
  limit : Option Int
  status : Option String
  animal_type : Option String
  gender : Option String
  is_healthy : Option Bool
  is_vaccinated : Option Bool
  is_sterilized : Option Bool
  groups : Option (List String)
  search_query : Option String
  order_by : Option String
deriving DecidableEq, Repr

/-- JavaScript `String(n)` for an integral number. -/
def numStr (n : Int) : String := toString n

/-- JavaScript `String(b)` for a boolean. -/
def boolStr (b : Bool) : String := if b then "true" else "false"

/-- The pair emitted by `search.set(key, render(x))` under an
`if (params.x != null)` guard: present unless the field is absent. -/
def optSeg {α : Type} (key : String) (o : Option α) (render : α → String) :
    List (String × String) :=
  match o with
  | some x => [(key, render x)]
  | none => []

/-- The pair emitted by `search.set(key, s)` under a truthiness guard
`if (params.s)`: present iff the string field is present and non-empty. -/
def strSeg (key : String) (o : Option String) : List (String × String) :=
  match o with
  | some s => if s = "" then [] else [(key, s)]
  | none => []

/-- The pairs emitted by `params.groups?.length && forEach(append)`: one
`groups` entry per element of a present, non-empty array. -/
def groupsSeg (o : Option (List String)) : List (String × String) :=
  match o with
  | some gs => if gs.isEmpty then [] else gs.map (fun g => ("groups", g))
  | none => []

/-- The name/value pairs accumulated by `buildQuery`, in source order. -/
def buildQueryPairs (p : PetListParams) : List (String × String) :=
  optSeg "skip" p.skip numStr ++
    optSeg "limit" p.limit numStr ++
    strSeg "status" p.status ++
    strSeg "animal_type" p.animal_type ++
    strSeg "gender" p.gender ++
    optSeg "is_healthy" p.is_healthy boolStr ++
    optSeg "is_vaccinated" p.is_vaccinated boolStr ++
    optSeg "is_sterilized" p.is_sterilized boolStr ++
    strSeg "search_query" p.search_query ++
    strSeg "order_by" p.order_by ++
    groupsSeg p.groups

/-- Uppercase hexadecimal digit. -/
def hexDigitChar (n : Nat) : Char :=
  if n < 10 then Char.ofNat (48 + n) else Char.ofNat (55 + n)

/-- Percent escape (`%XX`) of one byte. -/
def percentEncodeByte (b : Nat) : List Char :=
  ['%', hexDigitChar (b / 16), hexDigitChar (b % 16)]

/-- Bytes `URLSearchParams` leaves unescaped: alphanumerics and `*-._`. -/
def isFormSafe (b : Nat) : Bool :=
  decide ((48 ≤ b ∧ b ≤ 57) ∨ (65 ≤ b ∧ b ≤ 90) ∨ (97 ≤ b ∧ b ≤ 122) ∨
    b = 42 ∨ b = 45 ∨ b = 46 ∨ b = 95)

/-- Form escaping (`application/x-www-form-urlencoded`) of one string, as
`URLSearchParams.toString` performs over its UTF-8 bytes. -/
def formEncode (s : String) : String :=
  String.mk (s.toUTF8.toList.foldr (fun b acc =>
    (if b.toNat = 32 then ['+']
     else if isFormSafe b.toNat then [Char.ofNat b.toNat]
     else percentEncodeByte b.toNat) ++ acc) [])

/-- Source `URLSearchParams.toString`: encoded `name=value` pairs joined by `&`. -/
def queryToString (pairs : List (String × String)) : String :=
  String.intercalate "&" (pairs.map (fun kv => formEncode kv.1 ++ "=" ++ formEncode kv.2))

/-- Source `buildQuery` from `src/api/pets.ts`. -/
def buildQuery (p : PetListParams) : String :=
  queryToString (buildQueryPairs p)

/-- The request URL built by `fetchPetList`:
`API_BASE_URL/api/pets` plus `?query` only when the query is non-empty. -/
def fetchPetListUrl (API_BASE_URL : String) (p : PetListParams) : String :=
  let query := buildQuery p
  API_BASE_URL ++ "/api/pets" ++ (if query = "" then "" else "?" ++ query)

/-- The values of the `groups` entries of a pair list, in order. -/
def groupsEntries (l : List (String × String)) : List String :=
  l.filterMap (fun kv => if kv.1 = "groups" then some kv.2 else none)

/-! ### Frontend: pagination window of `PetsPage`

Embeds lines 77–82 of `src/frontend/src/pages/PetsPage.tsx`.  For the
`Nat` inputs the page actually sees, `Math.ceil(x / 9)` is `(x + 8) / 9`
and `Math.max(1, ·)` coincides with the truncated `Nat` subtraction; the
`Array.from` length is computed in `Int` because JavaScript clamps a
negative length to an empty array. -/

namespace PetsPage

/-- Source `const LIMIT = 9`. -/
def LIMIT : Nat := 9

/-- Source `const pageWindow = 5`. -/
def pageWindow : Nat := 5

/-- Source `Math.ceil(data.total_count / LIMIT)` (`0` when there is no data is
subsumed by `total_count = 0`). -/
def totalPages (total_count : Nat) : Nat := (total_count + LIMIT - 1) / LIMIT

/-- Source `totalPages > 0 ? Math.floor(skip / LIMIT) + 1 : 0`. -/
def currentPage (total_count skip : Nat) : Nat :=
  if 0 < totalPages total_count then skip / LIMIT + 1 else 0

/-- Source `Math.max(1, currentPage - Math.floor(pageWindow / 2))`. -/
def startPage (total_count skip : Nat) : Nat :=
  max 1 (currentPage total_count skip - pageWindow / 2)

/-- Source `Math.min(totalPages, startPage + pageWindow - 1)`. -/
def endPage (total_count skip : Nat) : Nat :=
  min (totalPages total_count) (startPage total_count skip + pageWindow - 1)

/-- Source `totalPages > 0 ? Array.from(\x7blength: endPage - startPage + 1\x7d,
(_, i) => startPage + i) : []`. -/
def pagesToShow (total_count skip : Nat) : List Nat :=
  if 0 < totalPages total_count then
    (List.range ((endPage total_count skip : Int) - startPage total_count skip + 1).toNat).map
      (fun i => startPage total_count skip + i)
  else []

end PetsPage

/-! ### Frontend: `imageUrl` of the config module

Embeds `imageUrl` from `src/config.ts` (the module defining
`API_BASE_URL`, here an explicit argument).  The JavaScript
`pathOrFull.startsWith("uploads/")` is the character-prefix test and
`slice(8)` drops the first eight characters (the prefix is ASCII, so
characters coincide with UTF-16 code units). -/

/-- Source `imageUrl(pathOrFull)`: strip one leading `uploads/` and prepend the
API upload path. -/
def imageUrl (API_BASE_URL : String) (pathOrFull : String) : String :=
  let path :=
    if "uploads/".data.isPrefixOf pathOrFull.data then pathOrFull.drop 8 else pathOrFull
  API_BASE_URL ++ "/api/v1/uploads/" ++ path

/-! ### Theorems -/

theorem mem_toDigitsRev_lt {fuel n d : Nat} (h : d ∈ toDigitsRev fuel n) : d < 10 := by
  induction fuel generalizing n with
  | zero => simp [toDigitsRev] at h
  | succ fuel ih =>
    unfold toDigitsRev at h
    by_cases h0 : n = 0
    · simp [h0] at h
    · simp [h0] at h
      rcases h with h | h
      · omega
      · exact ih h

theorem foldDigits_toDigitsRev {fuel n : Nat} (h : n ≤ fuel) :
    (toDigitsRev fuel n).foldr (fun d a => 10 * a + d) 0 = n := by
  induction fuel generalizing n with
  | zero => simp [toDigitsRev]; omega
  | succ fuel ih =>
    unfold toDigitsRev
    by_cases h0 : n = 0
    · simp [h0]
    · have hdiv : n / 10 ≤ fuel := by
        have := Nat.div_lt_self (Nat.pos_of_ne_zero h0) (by norm_num : 1 < 10)
        omega
      simp [h0, ih hdiv]
      omega

theorem charDigit_digitChar {d : Nat} (h : d < 10) : charDigit (digitChar d) = d := by
  interval_cases d <;> decide

theorem toNat_digitChar {d : Nat} (h : d < 10) : (digitChar d).toNat = 48 + d := by
  interval_cases d <;> decide

theorem charsToNat_natToChars (n : Nat) : charsToNat (natToChars n) = n := by
  unfold natToChars
  by_cases h0 : n = 0
  · simp [h0]; decide
  · simp [h0, charsToNat, List.foldl_reverse]
    have : ∀ l : List Nat, (∀ d ∈ l, d < 10) →
        (l.map digitChar).foldr (fun c a => 10 * a + charDigit c) 0 =
        l.foldr (fun d a => 10 * a + d) 0 := by
      intro l hl
      induction l with
      | nil => rfl
      | cons d l ihl =>
        simp only [List.map_cons, List.foldr_cons]
        rw [ihl (fun x hx => hl x (List.mem_cons_of_mem _ hx)),
          charDigit_digitChar (hl d (List.mem_cons_self _ _))]
    rw [this _ (fun d hd => mem_toDigitsRev_lt hd), foldDigits_toDigitsRev (Nat.le_refl n)]

theorem mem_natToChars_toNat {c : Char} {n : Nat} (h : c ∈ natToChars n) :
    48 ≤ c.toNat ∧ c.toNat ≤ 57 := by
  unfold natToChars at h
  by_cases h0 : n = 0
  · simp [h0] at h
    subst h; decide
  · simp [h0] at h
    rcases h with ⟨d, hd, hc⟩
    have hlt := mem_toDigitsRev_lt hd
    subst hc
    rw [toNat_digitChar hlt]
    omega

theorem splitOnChar_no_sep {sep : Char} {l : List Char} (h : ∀ c ∈ l, c ≠ sep) :
    splitOnChar sep l = [l] := by
  induction l with
  | nil => rfl
  | cons c rest ih =>
    have hc : ¬ c = sep := h c (List.mem_cons_self _ _)
    rw [splitOnChar]
    simp only [hc, if_false, ih (fun x hx => h x (List.mem_cons_of_mem _ hx))]
    rfl

theorem splitOnChar_append {sep : Char} {a rest : List Char} (h : ∀ c ∈ a, c ≠ sep) :
    splitOnChar sep (a ++ sep :: rest) = a :: splitOnChar sep rest := by
  induction a with
  | nil => simp [splitOnChar]
  | cons c a ih =>
    have hc : ¬ c = sep := h c (List.mem_cons_self _ _)
    simp only [List.cons_append]
    rw [splitOnChar]
    simp only [hc, if_false, ih (fun x hx => h x (List.mem_cons_of_mem _ hx))]
    rfl

theorem parseKind_kindChars (k : TokenKind) : parseKind (kindChars k) = some k := by
  cases k <;> decide

theorem mem_kindChars_ne_dot {c : Char} {k : TokenKind} (h : c ∈ kindChars k) : c ≠ '.' := by
  intro hc
  subst hc
  revert h
  cases k <;> decide

theorem mem_kindChars_ne_bar {c : Char} {k : TokenKind} (h : c ∈ kindChars k) : c ≠ '|' := by
  intro hc
  subst hc
  revert h
  cases k <;> decide

theorem mem_natToChars_ne_dot {c : Char} {n : Nat} (h : c ∈ natToChars n) : c ≠ '.' := by
  have := mem_natToChars_toNat h
  intro hc
  subst hc
  simp at this

theorem mem_natToChars_ne_bar {c : Char} {n : Nat} (h : c ∈ natToChars n) : c ≠ '|' := by
  have := mem_natToChars_toNat h
  intro hc
  subst hc
  simp at this

theorem mem_serializePayload_ne_bar {c : Char} {p : TokenPayload}
    (h : c ∈ serializePayload p) : c ≠ '|' := by
  simp only [serializePayload, List.mem_append, List.mem_cons] at h
  rcases h with h | h | h
  · exact mem_natToChars_ne_bar h
  · subst h; decide
  · rcases h with h | h | h
    · exact mem_kindChars_ne_bar h
    · subst h; decide
    · rcases h with h | h | h
      · exact mem_natToChars_ne_bar h
      · subst h; decide
      · exact mem_natToChars_ne_bar h

theorem parsePayload_serializePayload (p : TokenPayload) :
    parsePayload (serializePayload p) = some p := by
  unfold parsePayload serializePayload
  rw [splitOnChar_append (fun c hc => mem_natToChars_ne_dot hc),
    splitOnChar_append (fun c hc => mem_kindChars_ne_dot hc),
    splitOnChar_append (fun c hc => mem_natToChars_ne_dot hc),
    splitOnChar_no_sep (fun c hc => mem_natToChars_ne_dot hc)]
  simp [parseKind_kindChars, charsToNat_natToChars]

theorem mem_signChars_ne_bar {c : Char} {key : Nat} {payload : List Char}
    (hp : ∀ x ∈ payload, x ≠ '|') (h : c ∈ signChars key payload) : c ≠ '|' := by
  simp only [signChars, List.mem_append, List.mem_cons] at h
  rcases h with h | h | h
  · exact mem_natToChars_ne_bar h
  · subst h; decide
  · exact hp c h

theorem signChars_inj {key : Nat} {a b : List Char} (h : signChars key a = signChars key b) :
    a = b := by
  unfold signChars at h
  have := List.append_cancel_left h
  exact List.tail_eq_of_cons_eq this

theorem takeWhile_bar_append {p rest : List Char} (h : ∀ c ∈ p, c ≠ '|') :
    (p ++ '|' :: rest).takeWhile (fun c => c ≠ '|') = p ∧
    (p ++ '|' :: rest).dropWhile (fun c => c ≠ '|') = '|' :: rest := by
  induction p with
  | nil => constructor <;> simp [List.takeWhile, List.dropWhile]
  | cons c p ih =>
    have hc : c ≠ '|' := h c (List.mem_cons_self _ _)
    have ih' := ih (fun x hx => h x (List.mem_cons_of_mem _ hx))
    simp only [ne_eq, decide_not] at ih'
    constructor <;> simp [List.takeWhile_cons, List.dropWhile_cons, hc, ih'.1, ih'.2]

theorem dropWhile_bar_of_mem {t : List Char} (h : '|' ∈ t) :
    ∃ t2, t.dropWhile (fun c => c ≠ '|') = '|' :: t2 := by
  induction t with
  | nil => simp at h
  | cons c rest ih =>
    by_cases hc : c = '|'
    · subst hc
      exact ⟨rest, by simp [List.dropWhile_cons]⟩
    · have hmem : '|' ∈ rest := by
        rcases List.mem_cons.mp h with h1 | h1
        · exact absurd h1.symm hc
        · exact h1
      rcases ih hmem with ⟨t2, ht2⟩
      refine ⟨t2, ?_⟩
      simp only [List.dropWhile_cons]
      simpa [hc] using ht2

theorem validate_genuine (key : Nat) (p : TokenPayload) (ek : TokenKind) (now : Nat) :
    TokenService.validate key
        (serializePayload p ++ '|' :: signChars key (serializePayload p)) ek now =
      (if p.kind ≠ ek then .error .tokenInvalid
       else if p.expires_at ≤ now then .error .tokenExpired
       else .ok p.subject) := by
  have hspan := @takeWhile_bar_append (serializePayload p)
    (signChars key (serializePayload p))
    (fun c hc => mem_serializePayload_ne_bar hc)
  unfold TokenService.validate
  simp only [hspan.1, hspan.2, parsePayload_serializePayload]
  simp

theorem validate_tampered (key : Nat) (p t : List Char) (ek : TokenKind) (now : Nat)
    (hne : t ≠ p) :
    TokenService.validate key (t ++ '|' :: signChars key p) ek now = .error .tokenInvalid := by
  by_cases hbar : '|' ∈ t
  · -- the tampered payload section itself contains a separator byte: the
    -- stored signature section then contains a `'|'` while a recomputed
    -- signature cannot, so the signature check fails
    rcases dropWhile_bar_of_mem hbar with ⟨t2, ht2⟩
    have ht1 : ∀ c ∈ t.takeWhile (fun c => c ≠ '|'), c ≠ '|' := by
      intro c hc
      have := List.mem_takeWhile_imp hc
      simpa using this
    have hsplit : t = t.takeWhile (fun c => c ≠ '|') ++ '|' :: t2 := by
      conv_lhs => rw [← List.takeWhile_append_dropWhile (fun c => decide (c ≠ '|')) t]
      rw [ht2]
    have hraw : t ++ '|' :: signChars key p =
        t.takeWhile (fun c => c ≠ '|') ++ '|' :: (t2 ++ '|' :: signChars key p) := by
      conv_lhs => rw [hsplit]
      simp
    rw [hraw]
    have hspan := @takeWhile_bar_append (t.takeWhile (fun c => c ≠ '|'))
      (t2 ++ '|' :: signChars key p) ht1
    unfold TokenService.validate
    simp only [hspan.1, hspan.2]
    cases hpp : parsePayload (t.takeWhile (fun c => c ≠ '|')) with
    | none => simp [hpp]
    | some q =>
      have hsig : signChars key (t.takeWhile (fun c => c ≠ '|')) ≠
          t2 ++ '|' :: signChars key p := by
        intro heq
        have hmem : '|' ∈ t2 ++ '|' :: signChars key p :=
          List.mem_append_right _ (List.mem_cons_self _ _)
        rw [← heq] at hmem
        exact mem_signChars_ne_bar ht1 hmem rfl
      simp only [ne_eq, decide_not] at hsig
      simp [hpp, hsig]
  · -- no separator introduced: the payload section parses as usual but the
    -- recomputed signature differs because signing is injective per key
    have ht : ∀ c ∈ t, c ≠ '|' := fun c hc heq => hbar (heq ▸ hc)
    have hspan := @takeWhile_bar_append t (signChars key p) ht
    unfold TokenService.validate
    simp only [hspan.1, hspan.2]
    cases hpp : parsePayload t with
    | none => simp [hpp]
    | some q =>
      have hsig : signChars key t ≠ signChars key p := fun heq => hne (signChars_inj heq)
      simp [hpp, hsig]

/-- Claim C1: validating a token immediately after issuing it with the same
kind and the same `now` returns the original subject. -/
theorem validate_issue_roundtrip (key subject : Nat) (kind : TokenKind) (now : Nat) :
    TokenService.validate key (TokenService.issue key subject kind now) kind now =
      .ok subject := by
  unfold TokenService.issue
  rw [validate_genuine]
  have httl : 0 < ttl kind := by cases kind <;> decide
  simp
  omega

/-- Claim C4: an access token validated with expected kind refresh fails
with `tokenInvalid` (never `tokenExpired`) at every validation time, and
symmetrically for a refresh token where an access token is expected. -/
theorem validate_wrong_kind (key subject now now' : Nat) :
    TokenService.validate key (TokenService.issue key subject .access now) .refresh now' =
      .error .tokenInvalid ∧
    TokenService.validate key (TokenService.issue key subject .refresh now) .access now' =
      .error .tokenInvalid := by
  constructor <;>
    · unfold TokenService.issue
      rw [validate_genuine]
      simp

/-- Claim C3: tampering with the payload section of an issued token (any
change at all, hence any tampered byte) makes `validate` fail with
`tokenInvalid` — never `tokenExpiredError` — at every validation time and
for every expected kind: tamper detection takes precedence over expiry. -/
theorem validate_tampered_payload (key subject : Nat) (kind : TokenKind)
    (now : Nat) (t : List Char) (ek : TokenKind) (now' : Nat)
    (hne : t ≠ serializePayload ⟨subject, kind, now, now + ttl kind⟩) :
    TokenService.validate key
        (t ++ '|' :: signChars key (serializePayload ⟨subject, kind, now, now + ttl kind⟩))
        ek now' = .error .tokenInvalid :=
  validate_tampered key _ t ek now' hne

theorem mem_natToChars_ne_dollar {c : Char} {n : Nat} (h : c ∈ natToChars n) : c ≠ '$' := by
  have := mem_natToChars_toNat h
  intro hc
  subst hc
  simp at this

/-- Claim C5: verifying a password against a hash freshly produced from it
succeeds for every salt, and `verify` returns `false` (it is total, hence
never throws) on every malformed blob. -/
theorem verify_hash_roundtrip (salt : Nat) (pwd : String) (blob : List Char)
    (hm : (splitOnChar '$' blob).length ≠ 2) :
    PasswordService.verify pwd (PasswordService.hash salt pwd) = true ∧
    PasswordService.verify pwd blob = false := by
  constructor
  · unfold PasswordService.verify PasswordService.hash
    rw [splitOnChar_append (fun c hc => mem_natToChars_ne_dollar hc),
      splitOnChar_no_sep (fun c hc => mem_natToChars_ne_dollar hc)]
    simp [charsToNat_natToChars]
  · unfold PasswordService.verify
    rcases hs : splitOnChar '$' blob with _ | ⟨a, _ | ⟨b, _ | ⟨c, l⟩⟩⟩ <;> simp
    rw [hs] at hm
    simp at hm

/-- Claim C2: `login` fails with `invalidCredentials` exactly when the user
is absent, the password does not verify, or the user is inactive — the
same error kind in all three cases — and otherwise succeeds with an access
token, a refresh token and the resolved user. -/
theorem login_spec (key : Nat) (dir : List User) (email pwd : String) (now : Nat) :
    (AuthService.login key dir email pwd now = .error .invalidCredentials ↔
      (UserDirectory.find_by_email dir email = none ∨
        ∃ u, UserDirectory.find_by_email dir email = some u ∧
          (PasswordService.verify pwd u.password_hash = false ∨ u.is_active = false))) ∧
    (∀ u, UserDirectory.find_by_email dir email = some u →
      PasswordService.verify pwd u.password_hash = true → u.is_active = true →
      AuthService.login key dir email pwd now =
        .ok ⟨TokenService.issue key u.id .access now,
          TokenService.issue key u.id .refresh now, u⟩) := by
  unfold AuthService.login
  cases hf : UserDirectory.find_by_email dir email with
  | none => simp [hf]
  | some u =>
    cases hv : PasswordService.verify pwd u.password_hash <;>
      cases ha : u.is_active <;> simp [hf, hv, ha]

/-- Claim C6: `require_admin` fails with `authorizationError` exactly when
the user is not an admin, and returns the very same user otherwise. -/
theorem require_admin_spec (u : User) :
    (AccessGate.require_admin u = .error .authorizationError ↔ u.is_admin = false) ∧
    (u.is_admin = true → AccessGate.require_admin u = .ok u) := by
  unfold AccessGate.require_admin
  cases h : u.is_admin <;> simp

/-- Claim C7: optional authentication returns no identity (not an error)
when the header is absent, fails with `tokenInvalid` when the header is
present but malformed, and propagates the error of an invalid present
token exactly as mandatory authentication does. -/
theorem authenticate_optional_spec (key : Nat) (dir : List User) (now : Nat) :
    AccessGate.authenticate_optional key dir now none = .ok none ∧
    (∀ h, AccessGate.extractBearer h = none →
      AccessGate.authenticate_optional key dir now (some h) = .error .tokenInvalid) ∧
    (∀ h tok e, AccessGate.extractBearer h = some tok →
      TokenService.validate key tok .access now = .error e →
      AccessGate.authenticate_optional key dir now (some h) = .error e) := by
  refine ⟨rfl, ?_, ?_⟩
  · intro h hex
    simp [AccessGate.authenticate_optional, AccessGate.authenticate, hex, Except.map]
  · intro h tok e hex hval
    simp [AccessGate.authenticate_optional, AccessGate.authenticate, AuthService.verify,
      hex, hval, Except.map]

theorem mem_optSeg {α : Type} {key k v : String} {o : Option α} {render : α → String} :
    (k, v) ∈ optSeg key o render ↔ k = key ∧ ∃ x, o = some x ∧ v = render x := by
  cases o <;> simp [optSeg]

theorem mem_strSeg {key k v : String} {o : Option String} :
    (k, v) ∈ strSeg key o ↔ k = key ∧ o = some v ∧ v ≠ "" := by
  cases o with
  | none => simp [strSeg]
  | some s =>
    by_cases hs : s = ""
    · simp [strSeg, hs]
      exact fun _ hv => hv.symm
    · simp only [strSeg, hs, if_false, List.mem_singleton, Prod.mk.injEq,
        Option.some.injEq, ne_eq]
      constructor
      · rintro ⟨hk, hv⟩
        exact ⟨hk, hv.symm, fun he => hs (he ▸ hv.symm)⟩
      · rintro ⟨hk, hv, _⟩
        exact ⟨hk, hv.symm⟩

theorem mem_groupsSeg {k v : String} {o : Option (List String)} :
    (k, v) ∈ groupsSeg o ↔ k = "groups" ∧ ∃ gs, o = some gs ∧ v ∈ gs := by
  cases o with
  | none => simp [groupsSeg]
  | some gs =>
    by_cases hg : gs.isEmpty <;> simp [groupsSeg, hg]
    · rw [List.isEmpty_iff] at hg
      subst hg
      simp
    · aesop

theorem groupsEntries_optSeg {α : Type} {key : String} {o : Option α}
    {render : α → String} (hk : key ≠ "groups") :
    groupsEntries (optSeg key o render) = [] := by
  cases o <;> simp [groupsEntries, optSeg, hk]

theorem groupsEntries_strSeg {key : String} {o : Option String} (hk : key ≠ "groups") :
    groupsEntries (strSeg key o) = [] := by
  cases o with
  | none => simp [groupsEntries, strSeg]
  | some s => by_cases hs : s = "" <;> simp [groupsEntries, strSeg, hs, hk]

theorem groupsEntries_map_self (gs : List String) :
    groupsEntries (gs.map (fun g => ("groups", g))) = gs := by
  induction gs with
  | nil => rfl
  | cons g gs ih =>
    simp only [groupsEntries] at ih ⊢
    simp [List.filterMap_cons, ih]

theorem groupsEntries_groupsSeg {o : Option (List String)} :
    groupsEntries (groupsSeg o) = o.getD [] := by
  cases o with
  | none => simp [groupsEntries, groupsSeg]
  | some gs =>
    by_cases hg : gs.isEmpty
    · rw [List.isEmpty_iff] at hg
      simp [groupsEntries, groupsSeg, hg]
    · simp only [groupsSeg, hg, if_false, Option.getD_some]
      exact groupsEntries_map_self gs

theorem groupsEntries_append (a b : List (String × String)) :
    groupsEntries (a ++ b) = groupsEntries a ++ groupsEntries b :=
  List.filterMap_append a b _

/-- Claim C8: `buildQuery` serializes `skip`, `limit` and the three boolean
flags exactly when they are present (so `0` and `false` are still
serialized), serializes the five string filters exactly when they are
non-empty strings, appends one `groups` entry per element of a present
non-empty groups array, and produces the empty query string when every
field is absent, in which case `fetchPetList` requests the bare base URL. -/
theorem buildQuery_spec (p : PetListParams) :
    ((∃ v, ("skip", v) ∈ buildQueryPairs p) ↔ p.skip ≠ none) ∧
    ((∃ v, ("limit", v) ∈ buildQueryPairs p) ↔ p.limit ≠ none) ∧
    ((∃ v, ("is_healthy", v) ∈ buildQueryPairs p) ↔ p.is_healthy ≠ none) ∧
    ((∃ v, ("is_vaccinated", v) ∈ buildQueryPairs p) ↔ p.is_vaccinated ≠ none) ∧
    ((∃ v, ("is_sterilized", v) ∈ buildQueryPairs p) ↔ p.is_sterilized ≠ none) ∧
    ((∃ v, ("status", v) ∈ buildQueryPairs p) ↔ ∃ s, p.status = some s ∧ s ≠ "") ∧
    ((∃ v, ("animal_type", v) ∈ buildQueryPairs p) ↔ ∃ s, p.animal_type = some s ∧ s ≠ "") ∧
    ((∃ v, ("gender", v) ∈ buildQueryPairs p) ↔ ∃ s, p.gender = some s ∧ s ≠ "") ∧
    ((∃ v, ("search_query", v) ∈ buildQueryPairs p) ↔ ∃ s, p.search_query = some s ∧ s ≠ "") ∧
    ((∃ v, ("order_by", v) ∈ buildQueryPairs p) ↔ ∃ s, p.order_by = some s ∧ s ≠ "") ∧
    groupsEntries (buildQueryPairs p) = p.groups.getD [] ∧
    (p.skip = none → p.limit = none → p.status = none → p.animal_type = none →
      p.gender = none → p.is_healthy = none → p.is_vaccinated = none →
      p.is_sterilized = none → p.groups = none → p.search_query = none →
      p.order_by = none →
      buildQuery p = "" ∧ ∀ base, fetchPetListUrl base p = base ++ "/api/pets") := by
  refine ⟨?_, ?_, ?_, ?_, ?_, ?_, ?_, ?_, ?_, ?_, ?_, ?_⟩
  · simp only [buildQueryPairs, List.mem_append, mem_optSeg, mem_strSeg, mem_groupsSeg]
    cases h : p.skip <;> simp [h]
  · simp only [buildQueryPairs, List.mem_append, mem_optSeg, mem_strSeg, mem_groupsSeg]
    cases h : p.limit <;> simp [h]
  · simp only [buildQueryPairs, List.mem_append, mem_optSeg, mem_strSeg, mem_groupsSeg]
    cases h : p.is_healthy <;> simp [h]
  · simp only [buildQueryPairs, List.mem_append, mem_optSeg, mem_strSeg, mem_groupsSeg]
    cases h : p.is_vaccinated <;> simp [h]
  · simp only [buildQueryPairs, List.mem_append, mem_optSeg, mem_strSeg, mem_groupsSeg]
    cases h : p.is_sterilized <;> simp [h]
  · simp only [buildQueryPairs, List.mem_append, mem_optSeg, mem_strSeg, mem_groupsSeg]
    cases h : p.status <;> simp [h]
  · simp only [buildQueryPairs, List.mem_append, mem_optSeg, mem_strSeg, mem_groupsSeg]
    cases h : p.animal_type <;> simp [h]
  · simp only [buildQueryPairs, List.mem_append, mem_optSeg, mem_strSeg, mem_groupsSeg]
    cases h : p.gender <;> simp [h]
  · simp only [buildQueryPairs, List.mem_append, mem_optSeg, mem_strSeg, mem_groupsSeg]
    cases h : p.search_query <;> simp [h]
  · simp only [buildQueryPairs, List.mem_append, mem_optSeg, mem_strSeg, mem_groupsSeg]
    cases h : p.order_by <;> simp [h]
  · simp only [buildQueryPairs, groupsEntries_append]
    rw [groupsEntries_optSeg (by decide), groupsEntries_optSeg (by decide),
      groupsEntries_strSeg (by decide), groupsEntries_strSeg (by decide),
      groupsEntries_strSeg (by decide), groupsEntries_optSeg (by decide),
      groupsEntries_optSeg (by decide), groupsEntries_optSeg (by decide),
      groupsEntries_strSeg (by decide), groupsEntries_strSeg (by decide),
      groupsEntries_groupsSeg]
    simp
  · intro h1 h2 h3 h4 h5 h6 h7 h8 h9 h10 h11
    have hpairs : buildQueryPairs p = [] := by
      simp [buildQueryPairs, h1, h2, h3, h4, h5, h6, h7, h8, h9, h10, h11,
        optSeg, strSeg, groupsSeg]
    have hq : buildQuery p = "" := by
      rw [buildQuery, hpairs]
      rfl
    refine ⟨hq, fun base => ?_⟩
    rw [fetchPetListUrl]
    simp [hq]

/-- Claim C9: whenever `total_count ≥ 1` and `skip` is a multiple of 9
below `total_count`, the page list is a run of consecutive integers
starting at `startPage`, non-empty and of length at most 5, every element
lies in `[1, ⌈total_count / 9⌉]`, and the current page
`⌊skip / 9⌋ + 1` is in it. -/
theorem pagesToShow_spec (tc skip : Nat) (htc : 1 ≤ tc) (h9 : skip % 9 = 0)
    (hlt : skip < tc) :
    ∃ n, 1 ≤ n ∧ n ≤ 5 ∧
      PetsPage.pagesToShow tc skip =
        (List.range n).map (fun i => PetsPage.startPage tc skip + i) ∧
      (∀ x ∈ PetsPage.pagesToShow tc skip, 1 ≤ x ∧ x ≤ PetsPage.totalPages tc) ∧
      (skip / 9 + 1) ∈ PetsPage.pagesToShow tc skip := by
  have hTP : 0 < PetsPage.totalPages tc := by
    unfold PetsPage.totalPages PetsPage.LIMIT
    omega
  have hCP : PetsPage.currentPage tc skip = skip / 9 + 1 := by
    unfold PetsPage.currentPage PetsPage.LIMIT
    simp [hTP]
  have hCPle : skip / 9 + 1 ≤ PetsPage.totalPages tc := by
    unfold PetsPage.totalPages PetsPage.LIMIT
    omega
  have hS1 : 1 ≤ PetsPage.startPage tc skip := by
    unfold PetsPage.startPage
    omega
  have hSle : PetsPage.startPage tc skip ≤ skip / 9 + 1 := by
    unfold PetsPage.startPage PetsPage.pageWindow
    rw [hCP]
    omega
  have hScp : skip / 9 + 1 ≤ PetsPage.startPage tc skip + 4 := by
    unfold PetsPage.startPage PetsPage.pageWindow
    rw [hCP]
    omega
  have hE1 : PetsPage.startPage tc skip ≤ PetsPage.endPage tc skip := by
    unfold PetsPage.endPage PetsPage.pageWindow
    omega
  have hE2 : PetsPage.endPage tc skip ≤ PetsPage.totalPages tc := by
    unfold PetsPage.endPage
    omega
  have hE3 : PetsPage.endPage tc skip ≤ PetsPage.startPage tc skip + 4 := by
    unfold PetsPage.endPage PetsPage.pageWindow
    omega
  have hEcp : skip / 9 + 1 ≤ PetsPage.endPage tc skip := by
    unfold PetsPage.endPage PetsPage.pageWindow
    omega
  have hshow : PetsPage.pagesToShow tc skip =
      (List.range (PetsPage.endPage tc skip - PetsPage.startPage tc skip + 1)).map
        (fun i => PetsPage.startPage tc skip + i) := by
    unfold PetsPage.pagesToShow
    rw [if_pos hTP]
    have hlen : ((PetsPage.endPage tc skip : Int) - PetsPage.startPage tc skip + 1).toNat =
        PetsPage.endPage tc skip - PetsPage.startPage tc skip + 1 := by omega
    rw [hlen]
  refine ⟨PetsPage.endPage tc skip - PetsPage.startPage tc skip + 1,
    by omega, by omega, hshow, ?_, ?_⟩
  · intro x hx
    rw [hshow] at hx
    simp only [List.mem_map, List.mem_range] at hx
    rcases hx with ⟨i, hi, rfl⟩
    omega
  · rw [hshow]
    simp only [List.mem_map, List.mem_range]
    exact ⟨skip / 9 + 1 - PetsPage.startPage tc skip, by omega, by omega⟩

/-- Claim C10: for every string `s` that does not itself start with
`uploads/`, `imageUrl` maps `"uploads/" ++ s` and `s` to the same URL,
namely `API_BASE_URL ++ "/api/v1/uploads/" ++ s` — exactly one prefix is
stripped. -/
theorem imageUrl_strip_spec (base s : String)
    (h : ¬ "uploads/".data.isPrefixOf s.data) :
    imageUrl base ("uploads/" ++ s) = imageUrl base s ∧
    imageUrl base s = base ++ "/api/v1/uploads/" ++ s := by
  have hpre : "uploads/".data.isPrefixOf ("uploads/" ++ s).data = true := by
    rw [String.data_append]
    exact List.isPrefixOf_iff_prefix.mpr (List.prefix_append _ _)
  have hdrop : ("uploads/" ++ s).drop 8 = s := by
    rw [String.drop_eq, String.data_append]
    have h8 : ("uploads/".data).length = 8 := rfl
    rw [← h8, List.drop_left]
  constructor
  · rw [imageUrl, imageUrl]
    simp only [hpre, if_true, hdrop]
    simp [h]
  · rw [imageUrl]
    simp [h]


/-- Witness for C2: a concrete one-user directory where login succeeds. -/
theorem login_spec_witness :
    UserDirectory.find_by_email
        [⟨1, "user@example.com", PasswordService.hash 3 "pw", true, false⟩]
        "user@example.com" =
      some ⟨1, "user@example.com", PasswordService.hash 3 "pw", true, false⟩ ∧
    PasswordService.verify "pw" (PasswordService.hash 3 "pw") = true ∧
    AuthService.login 7 [⟨1, "user@example.com", PasswordService.hash 3 "pw", true, false⟩]
        "user@example.com" "pw" 0 =
      .ok ⟨TokenService.issue 7 1 .access 0, TokenService.issue 7 1 .refresh 0,
        ⟨1, "user@example.com", PasswordService.hash 3 "pw", true, false⟩⟩ := by
  have h := login_spec 7
    [⟨1, "user@example.com", PasswordService.hash 3 "pw", true, false⟩]
    "user@example.com" "pw" 0
  exact ⟨rfl, rfl, h.2 _ rfl rfl rfl⟩

/-- Witness for C3: a one-byte payload replacing a genuine serialized
payload is rejected as invalid, not expired. -/
theorem validate_tampered_payload_witness :
    (['x'] : List Char) ≠ serializePayload ⟨5, .access, 0, 0 + ttl .access⟩ ∧
    TokenService.validate 7
        (['x'] ++ '|' :: signChars 7 (serializePayload ⟨5, .access, 0, 0 + ttl .access⟩))
        .access 0 = .error .tokenInvalid :=
  ⟨by decide, validate_tampered_payload 7 5 .access 0 ['x'] .access 0 (by decide)⟩

/-- Witness for C5: a fresh hash verifies and a separator-free blob is
malformed and rejected. -/
theorem verify_hash_roundtrip_witness :
    (splitOnChar '$' ['x']).length ≠ 2 ∧
    PasswordService.verify "pw" (PasswordService.hash 3 "pw") = true ∧
    PasswordService.verify "pw" ['x'] = false := by
  have h := verify_hash_roundtrip 3 "pw" ['x'] (by decide)
  exact ⟨by decide, h.1, h.2⟩

/-- Witness for C6: an admin user passes through unchanged, a non-admin is
rejected. -/
theorem require_admin_spec_witness :
    AccessGate.require_admin ⟨1, "a", [], true, true⟩ = .ok ⟨1, "a", [], true, true⟩ ∧
    AccessGate.require_admin ⟨2, "b", [], true, false⟩ = .error .authorizationError :=
  ⟨(require_admin_spec ⟨1, "a", [], true, true⟩).2 rfl,
    (require_admin_spec ⟨2, "b", [], true, false⟩).1.mpr rfl⟩

/-- Witness for C7: a missing header yields no identity and a garbled
header fails with `tokenInvalid`. -/
theorem authenticate_optional_spec_witness :
    AccessGate.authenticate_optional 7 [] 0 none = .ok none ∧
    AccessGate.extractBearer ['x'] = none ∧
    AccessGate.authenticate_optional 7 [] 0 (some ['x']) = .error .tokenInvalid := by
  have h := authenticate_optional_spec 7 [] 0
  exact ⟨h.1, rfl, h.2.1 ['x'] rfl⟩

/-- Witness for C8: a parameter record with `skip = 0` and two groups, and
the all-absent record producing the bare URL. -/
theorem buildQuery_spec_witness :
    groupsEntries (buildQueryPairs
      ⟨some 0, none, none, none, none, some false, none, none,
        some ["a", "b"], none, none⟩) = ["a", "b"] ∧
    buildQuery ⟨none, none, none, none, none, none, none, none, none, none, none⟩ = "" ∧
    fetchPetListUrl "B"
        ⟨none, none, none, none, none, none, none, none, none, none, none⟩ =
      "B" ++ "/api/pets" := by
  have h1 := buildQuery_spec
    ⟨some 0, none, none, none, none, some false, none, none, some ["a", "b"], none, none⟩
  have h2 := buildQuery_spec
    ⟨none, none, none, none, none, none, none, none, none, none, none⟩
  refine ⟨?_, ?_, ?_⟩
  · simpa using h1.2.2.2.2.2.2.2.2.2.2.1
  · exact (h2.2.2.2.2.2.2.2.2.2.2.2 rfl rfl rfl rfl rfl rfl rfl rfl rfl rfl rfl).1
  · exact (h2.2.2.2.2.2.2.2.2.2.2.2 rfl rfl rfl rfl rfl rfl rfl rfl rfl rfl rfl).2 "B"

/-- Witness for C9: twenty pets, second page. -/
theorem pagesToShow_spec_witness :
    1 ≤ 20 ∧ 9 % 9 = 0 ∧ 9 < 20 ∧ (9 / 9 + 1) ∈ PetsPage.pagesToShow 20 9 := by
  obtain ⟨n, -, -, -, -, hmem⟩ := pagesToShow_spec 20 9 (by decide) (by decide) (by decide)
  exact ⟨by decide, by decide, by decide, hmem⟩

/-- Witness for C10: a concrete image path. -/
theorem imageUrl_strip_spec_witness :
    ¬ "uploads/".data.isPrefixOf "img.png".data = true ∧
    imageUrl "http://h" ("uploads/" ++ "img.png") = imageUrl "http://h" "img.png" ∧
    imageUrl "http://h" "img.png" = "http://h" ++ "/api/v1/uploads/" ++ "img.png" := by
  have h := imageUrl_strip_spec "http://h" "img.png" (by decide)
  exact ⟨by decide, h.1, h.2⟩

end Priyut
